import Mathlib

/-!
Verification development for the invoice OCR field-extraction engine
(`invoice_ocr_api_v2.py`).  The Python extraction pipeline is shallowly
embedded below: every pure helper of the source becomes a Lean function on
`List String` / `List Char`, Python floats arising from parsed decimal
strings are modelled exactly as rationals (`ℚ`), Python `None` becomes
`Option.none`, and the regular expressions of the source are modelled as
explicit character-list scanners with the same leftmost-match and
backtracking behaviour (over the ASCII character classes that the inputs
of interest use; Python's unicode-aware `\w`, `\d`, `\s`, `lower()` and
`strip()` coincide with the ASCII versions on such inputs).

The external `dateparser.parse(...).strftime("%d %b %Y")` capability is not
part of the repository; both call sites compose parse-then-format, so it is
modelled as an abstract parameter `dp : String → Option String` (the
formatted date on success, `none` when the string is not a date).

Python dictionaries whose keys may remain unset are modelled with an extra
`Option` layer: for `invoice_details.invoice_date` and `customer.name` the
outer `Option` records whether the key was ever assigned (`none` = key
absent from the returned mapping), and the inner value is the Python-level
value (`none` = Python `None`).
-/

/-- ASCII word character, modelling Python's regex `\w` class. -/
def isWordChar (c : Char) : Bool := c.isAlphanum || c == '_'

/-- Whitespace-or-colon character class `[\s:]` used by the ABN and due-date
regexes. -/
def isWsColon (c : Char) : Bool := c.isWhitespace || c == ':'

/-- Is `needle` a prefix of the character list? -/
def listIsPrefixOf : List Char → List Char → Bool
  | [], _ => true
  | _ :: _, [] => false
  | a :: as, b :: bs => a == b && listIsPrefixOf as bs

/-- Does the character list contain `needle` as a contiguous segment?
Models Python's `needle in haystack` substring test. -/
def isSubstrList (needle : List Char) : List Char → Bool
  | [] => listIsPrefixOf needle []
  | c :: rest => listIsPrefixOf needle (c :: rest) || isSubstrList needle rest

/-- Python's `needle in haystack` on strings. -/
def strContains (hay needle : String) : Bool :=
  isSubstrList needle.toList hay.toList

/-- Python's `str.lower()` (ASCII), implemented on the character list. -/
def lowerStr (s : String) : String := String.mk (s.toList.map Char.toLower)

/-- Python's `str.strip()`: remove leading and trailing whitespace. -/
def pyStrip (s : String) : String :=
  String.mk (((s.toList.dropWhile Char.isWhitespace).reverse.dropWhile
    Char.isWhitespace).reverse)

/-- One pass of Python's `str.replace`: scan left to right, replacing
non-overlapping occurrences of `pat` and continuing after each replacement.
The first argument is fuel (instantiated with the list length plus one,
enough since each step consumes at least one character). -/
def replaceGo : Nat → List Char → List Char → List Char → List Char
  | 0, _, _, cs => cs
  | _ + 1, _, _, [] => []
  | f + 1, pat, rep, c :: rest =>
    if !pat.isEmpty && listIsPrefixOf pat (c :: rest) then
      rep ++ replaceGo f pat rep ((c :: rest).drop pat.length)
    else
      c :: replaceGo f pat rep rest

/-- Python's `s.replace(pat, rep)`. -/
def pyReplace (s pat rep : String) : String :=
  String.mk (replaceGo (s.toList.length + 1) pat.toList rep.toList s.toList)

/-- Digits of a character run as a natural number. -/
def digitsToNat (ds : List Char) : Nat :=
  ds.foldl (fun n c => n * 10 + (c.toNat - 48)) 0

/-- Exact rational value of the decimal literal `int.frac`, as produced by
Python's `float()` on the matched digit strings (the binary floating-point
representation is abstracted to the exact value). -/
def decimalVal (int frac : List Char) : ℚ :=
  (digitsToNat int : ℚ) + (digitsToNat frac : ℚ) / ((10 : ℚ) ^ frac.length)

/-- Try to match `[\d]+\.[\d]+` at the very start of the list; returns the
value of the match.  Greedy digit runs; no backtracking is possible for this
pattern at a fixed start position. -/
def tryDecimalAt (cs : List Char) : Option ℚ :=
  let d1 := cs.takeWhile Char.isDigit
  if d1.isEmpty then none
  else
    match cs.dropWhile Char.isDigit with
    | '.' :: r2 =>
      let d2 := r2.takeWhile Char.isDigit
      if d2.isEmpty then none else some (decimalVal d1 d2)
    | _ => none

/-- Leftmost match of `re.search(r"([\d]+\.[\d]+)", line)` as a value;
models the per-line scan of the GST look-ahead window. -/
def firstDecimalList : List Char → Option ℚ
  | [] => none
  | c :: rest =>
    match tryDecimalAt (c :: rest) with
    | some q => some q
    | none => firstDecimalList rest

/-- First decimal-shaped substring of a line, as a rational. -/
def firstDecimalInLine (s : String) : Option ℚ :=
  firstDecimalList s.toList

/-- After the literal `INCLUDES GST`, the pattern `[^\d]*([\d]+\.[\d]+)`
skips the non-digit run and then requires the first digit run to be
decimal-shaped; if it is not, the whole pattern fails at this literal
occurrence (the character class `[^\d]*` cannot cross a digit). -/
def firstRunDecimal (cs : List Char) : Option ℚ :=
  let cs' := cs.dropWhile (fun c => !c.isDigit)
  let d1 := cs'.takeWhile Char.isDigit
  if d1.isEmpty then none
  else
    match cs'.dropWhile Char.isDigit with
    | '.' :: r2 =>
      let d2 := r2.takeWhile Char.isDigit
      if d2.isEmpty then none else some (decimalVal d1 d2)
    | _ => none

/-- Scanner for `re.search(r"INCLUDES GST[^\d]*([\d]+\.[\d]+)", full,
re.IGNORECASE)`: at each position where the case-folded text starts with
`includes gst`, try to complete the pattern; on failure resume at the next
position (leftmost-match semantics of `re.search`). -/
def inlineGstGo : List Char → Option ℚ
  | [] => none
  | c :: rest =>
    if listIsPrefixOf ("includes gst".toList) ((c :: rest).map Char.toLower) then
      match firstRunDecimal ((c :: rest).drop 12) with
      | some q => some q
      | none => inlineGstGo rest
    else inlineGstGo rest

/-- The inline `INCLUDES GST <decimal>` match over the full concatenated
text (line 196 of the source). -/
def inlineGst (full : String) : Option ℚ :=
  inlineGstGo full.toList

/-- Try to match `\b\d+\.\d{2}\b` starting exactly here (the leading
boundary is checked by the caller).  `\d+` must be the whole digit run
(shorter splits put a digit where `\.` is required), then exactly two
digits and a trailing boundary.  On success returns the value and the
remaining characters after the match. -/
def tryMoneyAt (cs : List Char) : Option (ℚ × List Char) :=
  let d1 := cs.takeWhile Char.isDigit
  if d1.isEmpty then none
  else
    match cs.dropWhile Char.isDigit with
    | '.' :: a :: b :: r3 =>
      if a.isDigit && b.isDigit &&
          (match r3 with | [] => true | x :: _ => !isWordChar x) then
        some (decimalVal d1 [a, b], r3)
      else none
    | _ => none

/-- Scanner for `re.findall(r"\b\d+\.\d{2}\b", full)`: non-overlapping
leftmost matches, resuming after each match; the boolean tracks whether the
previous character was a word character (for the leading `\b`). -/
def moneyScanAux : Nat → List Char → Bool → List ℚ
  | 0, _, _ => []
  | _ + 1, [], _ => []
  | f + 1, c :: rest, prevWord =>
    if c.isDigit && !prevWord then
      match tryMoneyAt (c :: rest) with
      | some (q, rem) => q :: moneyScanAux f rem true
      | none => moneyScanAux f rest (isWordChar c)
    else moneyScanAux f rest (isWordChar c)

/-- All `\b\d+\.\d{2}\b` matches of the full text, in order, as rationals
(line 211 of the source). -/
def moneyFindAll (s : String) : List ℚ :=
  moneyScanAux (s.toList.length + 1) s.toList false

/-- Fixed-shape match of `[A-Z]{2}\.\d{3}-\d{2}\.INV-\d{4}` anchored at the
start of the list (18 characters, no backtracking). -/
def invMatchAt : List Char → Option String
  | a :: b :: '.' :: d1 :: d2 :: d3 :: '-' :: e1 :: e2 :: '.' :: 'I' :: 'N' :: 'V' :: '-'
      :: f1 :: f2 :: f3 :: f4 :: _ =>
    if a.isUpper && b.isUpper && [d1, d2, d3, e1, e2, f1, f2, f3, f4].all Char.isDigit then
      some (String.mk [a, b, '.', d1, d2, d3, '-', e1, e2, '.', 'I', 'N', 'V', '-',
        f1, f2, f3, f4])
    else none
  | _ => none

/-- Leftmost invoice-number match (first element of `re.findall` at line 151
of the source). -/
def invNumberGo : List Char → Option String
  | [] => none
  | c :: rest =>
    match invMatchAt (c :: rest) with
    | some s => some s
    | none => invNumberGo rest

/-- First `[A-Z]{2}\.\d{3}-\d{2}\.INV-\d{4}` match of the full text. -/
def invNumberFirst (s : String) : Option String := invNumberGo s.toList

/-- Try `Due Date[:\s]+(\d{1,2} \w+ \d{4})` anchored at the start of the
list.  `[:\s]+` must stop at the first digit; `\d{1,2}` with a following
literal space succeeds only when the digit run has length 1 or 2 and is
followed by a space; `\w+` with a following literal space must consume its
whole maximal run; `\d{4}` takes the next four digits.  Returns group 1. -/
def dueDateAt (cs : List Char) : Option String :=
  if listIsPrefixOf ("Due Date".toList) cs then
    let r := cs.drop 8
    let ws := r.takeWhile isWsColon
    if ws.isEmpty then none
    else
      let r2 := r.dropWhile isWsColon
      let d := r2.takeWhile Char.isDigit
      if d.length == 1 || d.length == 2 then
        match r2.drop d.length with
        | ' ' :: r3 =>
          let w := r3.takeWhile isWordChar
          if w.isEmpty then none
          else
            match r3.drop w.length with
            | ' ' :: r4 =>
              let y := r4.takeWhile Char.isDigit
              if 4 ≤ y.length then
                some (String.mk (d ++ [' '] ++ w ++ [' '] ++ y.take 4))
              else none
            | _ => none
        | _ => none
      else none
  else none

/-- Leftmost due-date match (`re.search` at line 168 of the source). -/
def dueDateGo : List Char → Option String
  | [] => none
  | c :: rest =>
    match dueDateAt (c :: rest) with
    | some s => some s
    | none => dueDateGo rest

/-- Due-date extraction over the full text. -/
def dueDateSearch (s : String) : Option String := dueDateGo s.toList

/-- One backtracking step of `ABN[\s:]*([\d ]{11,20})` after the literal:
with `k` characters consumed by `[\s:]*`, `[\d ]{11,20}` greedily takes up
to 20 characters of the following digit-or-space run and needs at least 11.
Returns group 1 with spaces stripped (line 70 of the source). -/
def abnCheckAt (rest : List Char) (k : Nat) : Option String :=
  let tail := rest.drop k
  let run := tail.takeWhile (fun c => c.isDigit || c == ' ')
  let m := min run.length 20
  if 11 ≤ m then some (String.mk ((tail.take m).filter (fun c => c != ' ')))
  else none

/-- Greedy-first backtracking of `[\s:]*`: try the longest whitespace-colon
consumption first, then shorter ones. -/
def abnTryK (rest : List Char) : Nat → Option String
  | 0 => abnCheckAt rest 0
  | k + 1 =>
    match abnCheckAt rest (k + 1) with
    | some s => some s
    | none => abnTryK rest k

/-- Try the ABN pattern anchored at the start of the list (the literal is
matched case-insensitively, as `re.IGNORECASE` prescribes). -/
def abnAt (cs : List Char) : Option String :=
  if listIsPrefixOf ("abn".toList) (cs.map Char.toLower) then
    let rest := cs.drop 3
    abnTryK rest (rest.takeWhile isWsColon).length
  else none

/-- Leftmost ABN match of the text. -/
def abnGo : List Char → Option String
  | [] => none
  | c :: rest =>
    match abnAt (c :: rest) with
    | some s => some s
    | none => abnGo rest

/-- `extract_abn` of the source (lines 67–71). -/
def extract_abn (text : String) : Option String := abnGo text.toList

/-- Anchored match of `^\d+(\.\d{1,2})?$` (the `numeric` pattern of
`extract_items`). -/
def numericMatch (s : String) : Bool :=
  let cs := s.toList
  !(cs.takeWhile Char.isDigit).isEmpty &&
    (match cs.dropWhile Char.isDigit with
     | [] => true
     | '.' :: r2 => !r2.isEmpty && r2.length ≤ 2 && r2.all Char.isDigit
     | _ => false)

/-- Anchored match of `^\d+\.\d{2}$` (the `money` pattern). -/
def moneyMatch (s : String) : Bool :=
  let cs := s.toList
  !(cs.takeWhile Char.isDigit).isEmpty &&
    (match cs.dropWhile Char.isDigit with
     | ['.', a, b] => a.isDigit && b.isDigit
     | _ => false)

/-- Anchored match of `^\d+%$` (the `gst_percent` pattern). -/
def gstPercentMatch (s : String) : Bool :=
  let cs := s.toList
  !(cs.takeWhile Char.isDigit).isEmpty &&
    (match cs.dropWhile Char.isDigit with
     | ['%'] => true
     | _ => false)

/-- The numeric-token test of the segmenter (line 105 of the source). -/
def isNumericTok (s : String) : Bool :=
  numericMatch s || moneyMatch s || gstPercentMatch s

/-- Start-keyword set of the supplier-address extractor. -/
def START : List String := ["level", "suite", "elizabeth"]

/-- Street-suffix keyword set of the supplier-address extractor. -/
def STREET_WORDS : List String := ["st", "street", "road", "rd", "ave", "avenue"]

/-- City keyword set of the supplier-address extractor. -/
def CITY_WORDS : List String := ["melbourne", "sydney", "brisbane", "perth", "adelaide", "hobart"]

/-- Stop-keyword set of the supplier-address extractor. -/
def STOP : List String := ["customer", "payment", "invoice", "amount", "description", "quantity"]

/-- `any(s in low for s in ws)` with `low = line.lower()`. -/
def hasKw (line : String) (ws : List String) : Bool :=
  ws.any (fun w => strContains (lowerStr line) w)

/-- The line-scanning loop of `extract_supplier_address` (lines 38–59):
state is the capturing flag and the accumulated capture; `break` is
modelled by returning the accumulator. -/
def addrLoop : List String → Bool → List String → List String
  | [], _, acc => acc
  | line :: rest, capturing, acc =>
    if !capturing && !hasKw line START then
      addrLoop rest capturing acc
    else if hasKw line STOP then acc
    else
      let acc' :=
        if hasKw line START || hasKw line STREET_WORDS || hasKw line CITY_WORDS ||
            strContains (lowerStr line) "australia" then
          acc ++ [line]
        else acc
      if strContains (lowerStr line) "australia" then acc'
      else addrLoop rest true acc'

/-- The captured address lines, before joining. -/
def addressLines (lines : List String) : List String := addrLoop lines false []

/-- `extract_supplier_address` of the source (lines 29–61). -/
def extract_supplier_address (lines : List String) : String :=
  pyStrip (pyReplace (String.intercalate ", " (addressLines lines)) "  " " ")

/-- The line normalizer `[str(x).strip() for x in lines if str(x).strip()]`
(line 138, and identically line 78 inside `extract_items`). -/
def safeOf (lines : List String) : List String :=
  (lines.map pyStrip).filter (fun s => s != "")

/-- Bucket collection of `extract_items` (lines 87–99): skip until a header
anchor, collect until a line containing `customer`; header-shaped lines are
skipped (`continue`) even after the anchor. -/
def bucketLoop : List String → Bool → List String
  | [], _ => []
  | line :: rest, afterHeader =>
    let low := (lowerStr line)
    if strContains low "unit price" ||
        (strContains low "description" && strContains low "quantity") then
      bucketLoop rest true
    else if afterHeader then
      if strContains low "customer" then []
      else line :: bucketLoop rest afterHeader
    else bucketLoop rest afterHeader

/-- The noise filter `re.match(r"^(item|description|quantity|gst|amount)", x.lower())`. -/
def noiseLeadMatch (low : String) : Bool :=
  ["item", "description", "quantity", "gst", "amount"].any
    (fun w => listIsPrefixOf w.toList low.toList)

/-- The numeric lines of the current group (line 105 of the source). -/
def numsOf (group : List String) : List String := group.filter isNumericTok

/-- The description reconstruction of an emitted item (lines 113–119):
lines of the group not among the numeric tokens and not noise, joined with
single spaces and stripped. -/
def descOf (group nums : List String) : String :=
  pyStrip (String.intercalate " " (group.filter (fun x =>
    !(nums.contains x) && !noiseLeadMatch (lowerStr x) &&
    !strContains (lowerStr x) "amount aud" && !strContains (lowerStr x) "tixperts-")))

/-- A line item: quantity/price fields are the raw matched strings. -/
structure LineItem where
  description : String
  quantity : String
  unit_price : String
  gst_percent : Option String
  line_total : String
deriving DecidableEq, Repr

/-- The item emitted from a completed group (lines 107–127): positions 1–4
of the numeric tokens are quantity, unit price, GST percent (only when
percent-shaped) and line total. -/
def mkItem (group nums : List String) : LineItem :=
  { description := descOf group nums
    quantity := nums.getD 0 ""
    unit_price := nums.getD 1 ""
    gst_percent := if gstPercentMatch (nums.getD 2 "") then some (nums.getD 2 "") else none
    line_total := nums.getD 3 "" }

/-- The grouping loop of `extract_items` (lines 101–129): append each line
to the group, and emit an item and reset when the group holds at least four
numeric tokens. -/
def segmentLoop : List String → List String → List LineItem
  | [], _ => []
  | line :: rest, group =>
    let group' := group ++ [line]
    let nums := numsOf group'
    if 4 ≤ nums.length then mkItem group' nums :: segmentLoop rest []
    else segmentLoop rest group'

/-- `extract_items` of the source (lines 77–131). -/
def extract_items (lines : List String) : List LineItem :=
  segmentLoop (bucketLoop (safeOf lines) false) []

/-- `find_date_in_window` of the source (lines 18–23): scan the indices of
`range(start_idx + 1, min(start_idx + window, len(lines)))` and return the
first line the date capability resolves (already formatted `DD Mon YYYY` by
`dp`). -/
def find_date_in_window (dp : String → Option String) (lines : List String)
    (startIdx window : Nat) : Option String :=
  (List.range' (startIdx + 1)
      (min (startIdx + window) lines.length - (startIdx + 1))).findSome?
    (fun i => dp (lines.getD i ""))

/-- Invoice-date resolution of `extract_invoice_fields` (lines 154–165),
with the dictionary-key presence made explicit: `none` means the
`invoice_date` key was never assigned, `some v` that it holds `v`.  The
anchored window result is kept only when truthy (non-`None`, non-empty);
otherwise the whole sequence is scanned for the first parseable line. -/
def invoiceDateField (dp : String → Option String) (safe : List String) :
    Option (Option String) :=
  let v0 : Option (Option String) :=
    (safe.findIdx? (fun l => strContains (lowerStr l) "invoice date")).map
      (fun i => find_date_in_window dp safe i 6)
  let truthy : Bool := match v0 with | some (some s) => s != "" | _ => false
  if truthy then v0
  else
    match safe.findSome? (fun t => dp t) with
    | some d => some (some d)
    | none => v0

/-- The look-ahead GST scan (lines 200–208): from the first line containing
`includes gst`, search `safe[idx:idx+5]` — that line and the next four —
for the first decimal-shaped substring. -/
def gstWindowScan (safe : List String) : Option ℚ :=
  match safe.findIdx? (fun l => strContains (lowerStr l) "includes gst") with
  | some idx => ((safe.drop idx).take 5).findSome? firstDecimalInLine
  | none => none

/-- GST amount (lines 192–208): inline match first, then the window scan. -/
def gstAmountOf (safe : List String) (full : String) : Option ℚ :=
  match inlineGst full with
  | some q => some q
  | none => gstWindowScan safe

/-- Banker's rounding to an integer, modelling Python's `round` on the
exact rational value. -/
def roundHalfEven (q : ℚ) : ℤ :=
  let f := ⌊q⌋
  if q - f < 1 / 2 then f
  else if (1 : ℚ) / 2 < q - f then f + 1
  else if f % 2 = 0 then f else f + 1

/-- Python's `round(x, 2)` on the exact rational value. -/
def round2 (q : ℚ) : ℚ := (roundHalfEven (q * 100) : ℚ) / 100

/-- The subtotal computation (lines 226–230): Python's
`if total and gst_amount:` is truthy only when both are non-`None` and
non-zero. -/
def subtotalOf (total gst_amount : Option ℚ) : Option ℚ :=
  match total, gst_amount with
  | some t, some g => if t ≠ 0 ∧ g ≠ 0 then some (round2 (t - g)) else none
  | _, _ => none

/-- Customer-name extraction (lines 183–186): the line after the first line
containing `customer`, provided a following line exists. -/
def findCustomerName : List String → Option String
  | [] => none
  | [_] => none
  | a :: b :: rest =>
    if strContains (lowerStr a) "customer" then some b
    else findCustomerName (b :: rest)

/-- Totals GST percent (lines 218–224): the first truthy `gst_percent`
among the items (Python truthiness skips `None` and the empty string). -/
def gstPercentFromItems (items : List LineItem) : Option String :=
  items.findSome? (fun it =>
    match it.gst_percent with
    | some s => if s != "" then some s else none
    | none => none)

/-- The full concatenated text `" ".join(safe)`. -/
def fullOf (lines : List String) : String :=
  String.intercalate " " (safeOf lines)

/-- `invoice_details` group; the extra `Option` layer on `invoice_date`
records dictionary-key presence (`none` = key never assigned). -/
structure InvoiceDetails where
  invoice_number : Option String
  invoice_date : Option (Option String)
  due_date : Option String
deriving DecidableEq, Repr

/-- `supplier` group; `address` is always a string in the source (line 179),
so it has no `Option`. -/
structure Supplier where
  name : Option String
  address : String
  abn : Option String
deriving DecidableEq, Repr

/-- `customer` group; the outer `Option` records key presence (the source
only ever assigns a string, so `some none` never occurs). -/
structure Customer where
  name : Option (Option String)
deriving DecidableEq, Repr

/-- `totals` group. -/
structure Totals where
  total : Option ℚ
  gst_amount : Option ℚ
  gst_percent : Option String
  subtotal : Option ℚ
deriving DecidableEq, Repr

/-- `payment_terms` group. -/
structure PaymentTerms where
  amount_due : Option ℚ
  due_date : Option String
deriving DecidableEq, Repr

/-- The root output record of the engine. -/
structure InvoiceRecord where
  invoice_details : InvoiceDetails
  supplier : Supplier
  customer : Customer
  items : List LineItem
  totals : Totals
  payment_terms : PaymentTerms
deriving DecidableEq, Repr

/-- `extract_invoice_fields` of the source (lines 137–236), parameterized by
the date capability `dp`. -/
def extract_invoice_fields (dp : String → Option String) (lines : List String) :
    InvoiceRecord :=
  let safe := safeOf lines
  let full := String.intercalate " " safe
  let total := (moneyFindAll full).getLast?
  let gst_amount := gstAmountOf safe full
  let items := extract_items safe
  { invoice_details :=
      { invoice_number := invNumberFirst full
        invoice_date := invoiceDateField dp safe
        due_date := dueDateSearch full }
    supplier :=
      { name := (safe.find? (fun t => strContains (lowerStr t) "pty")).map
          (fun t => pyReplace t "TIA" "T/A")
        address := extract_supplier_address safe
        abn := extract_abn full }
    customer := { name := (findCustomerName safe).map (fun s => some s) }
    items := items
    totals :=
      { total := total
        gst_amount := gst_amount
        gst_percent := gstPercentFromItems items
        subtotal := subtotalOf total gst_amount }
    payment_terms :=
      { amount_due := total
        due_date := dueDateSearch full } }

/-- A date capability that resolves nothing (a document with no parseable
dates). -/
def dpNone : String → Option String := fun _ => none

/-- A date capability resolving exactly two fixed absolute date lines, as
`dateparser.parse` followed by `strftime("%d %b %Y")` would. -/
def dpTest : String → Option String := fun s =>
  if s = "01 Jan 2020" then some "01 Jan 2020"
  else if s = "05 May 2021" then some "05 May 2021"
  else none

/-- The date capability as instantiated at one invocation time: `dateparser`
resolves the relative expression `today` against the clock. -/
def dpClockA : String → Option String := fun s =>
  if s = "today" then some "12 Oct 2026" else none

/-- The same capability one day later: `today` now resolves differently. -/
def dpClockB : String → Option String := fun s =>
  if s = "today" then some "13 Oct 2026" else none

/-- The claim's version of the date window, following the claim's words:
the next six lines after the anchor, exclusive of the anchor itself,
truncated at end of input. -/
def findDateInWindowSpec6 (dp : String → Option String) (lines : List String)
    (startIdx : Nat) : Option String :=
  ((lines.drop (startIdx + 1)).take 6).findSome? dp

/-- The claim's version of the GST look-ahead window, following the claim's
words: up to five lines strictly after the anchor line. -/
def gstWindowSpecAfter (safe : List String) : Option ℚ :=
  match safe.findIdx? (fun l => strContains (lowerStr l) "includes gst") with
  | some idx => ((safe.drop (idx + 1)).take 5).findSome? firstDecimalInLine
  | none => none

theorem findSome?_ext {α β : Type} {f g : α → Option β} :
    ∀ l : List α, (∀ a ∈ l, f a = g a) → l.findSome? f = l.findSome? g
  | [], _ => rfl
  | a :: t, h => by
    rw [List.findSome?_cons, List.findSome?_cons, h a (List.mem_cons_self a t)]
    cases g a with
    | some b => rfl
    | none => exact findSome?_ext t (fun x hx => h x (List.mem_cons_of_mem a hx))

theorem range'_findSome?_getD {α : Type} (f : String → Option α) (d : String) :
    ∀ (n a : Nat) (l : List String), a + n ≤ l.length →
      (List.range' a n).findSome? (fun i => f (l.getD i d)) =
        ((l.drop a).take n).findSome? f := by
  intro n
  induction n with
  | zero => intro a l _; rfl
  | succ n ih =>
    intro a l h
    have ha : a < l.length := by omega
    rw [List.range'_succ, List.findSome?_cons, List.drop_eq_getElem_cons ha,
      List.take_succ_cons, List.findSome?_cons]
    have hd : l.getD a d = l[a] := by
      simp [List.getD_eq_getElem?_getD, List.getElem?_eq_getElem ha]
    rw [hd]
    cases f l[a] with
    | some b => rfl
    | none => exact ih (a + 1) l (by omega)

theorem addrLoop_extends : ∀ (lines : List String) (c : Bool) (acc : List String),
    ∃ extra, addrLoop lines c acc = acc ++ extra := by
  intro lines
  induction lines with
  | nil => exact fun c acc => ⟨[], by simp [addrLoop]⟩
  | cons line rest ih =>
    intro c acc
    by_cases h1 : (!c && !hasKw line START) = true
    · simpa [addrLoop, h1] using ih c acc
    · by_cases h2 : hasKw line STOP = true
      · exact ⟨[], by simp [addrLoop, h1, h2]⟩
      · by_cases h3 : (hasKw line START || hasKw line STREET_WORDS || hasKw line CITY_WORDS ||
            strContains (lowerStr line) "australia") = true
        · by_cases h4 : strContains (lowerStr line) "australia" = true
          · exact ⟨[line], by simp [addrLoop, h1, h2, h3, h4]⟩
          · have h4' : strContains (lowerStr line) "australia" = false := by
              revert h4; cases strContains (lowerStr line) "australia" <;> simp
            have h5 : (hasKw line START || hasKw line STREET_WORDS ||
                hasKw line CITY_WORDS) = true := by
              revert h3; rw [h4']
              cases hasKw line START <;> cases hasKw line STREET_WORDS <;>
                cases hasKw line CITY_WORDS <;> simp
            obtain ⟨extra, he⟩ := ih true (acc ++ [line])
            exact ⟨[line] ++ extra, by simp [addrLoop, h1, h2, h4', h5, he]⟩
        · have h4' : strContains (lowerStr line) "australia" = false := by
            revert h3
            cases strContains (lowerStr line) "australia" <;> simp
          have h5 : (hasKw line START || hasKw line STREET_WORDS ||
              hasKw line CITY_WORDS) = false := by
            revert h3; rw [h4']
            cases hasKw line START <;> cases hasKw line STREET_WORDS <;>
              cases hasKw line CITY_WORDS <;> simp
          obtain ⟨extra, he⟩ := ih true acc
          exact ⟨extra, by simp [addrLoop, h1, h2, h4', h5, he]⟩

theorem addrLoop_stop_free : ∀ (lines : List String) (c : Bool) (acc : List String),
    (∀ l ∈ acc, hasKw l STOP = false) →
    ∀ l ∈ addrLoop lines c acc, hasKw l STOP = false := by
  intro lines
  induction lines with
  | nil => intro c acc hacc; simpa [addrLoop] using hacc
  | cons line rest ih =>
    intro c acc hacc l hl
    by_cases h1 : (!c && !hasKw line START) = true
    · exact ih c acc hacc l (by simpa [addrLoop, h1] using hl)
    · by_cases h2 : hasKw line STOP = true
      · simp only [addrLoop, h1, h2] at hl
        simp at hl
        exact hacc l hl
      · have h2' : hasKw line STOP = false := by
          revert h2; cases hasKw line STOP <;> simp
        have hacc' : ∀ x ∈ acc ++ [line], hasKw x STOP = false := by
          intro x hx
          rcases List.mem_append.mp hx with hx | hx
          · exact hacc x hx
          · simp at hx; rw [hx]; exact h2'
        by_cases h3 : (hasKw line START || hasKw line STREET_WORDS || hasKw line CITY_WORDS ||
            strContains (lowerStr line) "australia") = true
        · by_cases h4 : strContains (lowerStr line) "australia" = true
          · simp only [addrLoop, h1, h2, h3, h4] at hl
            simp at hl
            rcases hl with hl | hl
            · exact hacc l hl
            · rw [hl]; exact h2'
          · have h4' : strContains (lowerStr line) "australia" = false := by
              revert h4; cases strContains (lowerStr line) "australia" <;> simp
            have h5 : (hasKw line START || hasKw line STREET_WORDS ||
                hasKw line CITY_WORDS) = true := by
              revert h3; rw [h4']
              cases hasKw line START <;> cases hasKw line STREET_WORDS <;>
                cases hasKw line CITY_WORDS <;> simp
            exact ih true (acc ++ [line]) hacc' l (by simpa [addrLoop, h1, h2, h4', h5] using hl)
        · have h4' : strContains (lowerStr line) "australia" = false := by
            revert h3
            cases strContains (lowerStr line) "australia" <;> simp
          have h5 : (hasKw line START || hasKw line STREET_WORDS ||
              hasKw line CITY_WORDS) = false := by
            revert h3; rw [h4']
            cases hasKw line START <;> cases hasKw line STREET_WORDS <;>
              cases hasKw line CITY_WORDS <;> simp
          exact ih true acc hacc l (by simpa [addrLoop, h1, h2, h4', h5] using hl)

theorem addrLoop_aus_last : ∀ (lines : List String) (c : Bool) (acc : List String),
    (∀ l ∈ acc, strContains (lowerStr l) "australia" = false) →
    ∀ l ∈ (addrLoop lines c acc).dropLast, strContains (lowerStr l) "australia" = false := by
  intro lines
  induction lines with
  | nil =>
    intro c acc hacc l hl
    exact hacc l ((List.dropLast_sublist acc).subset (by simpa [addrLoop] using hl))
  | cons line rest ih =>
    intro c acc hacc l hl
    by_cases h1 : (!c && !hasKw line START) = true
    · exact ih c acc hacc l (by simpa [addrLoop, h1] using hl)
    · by_cases h2 : hasKw line STOP = true
      · simp only [addrLoop, h1, h2] at hl
        exact hacc l ((List.dropLast_sublist acc).subset (by simpa using hl))
      · by_cases h4 : strContains (lowerStr line) "australia" = true
        · have h3 : (hasKw line START || hasKw line STREET_WORDS || hasKw line CITY_WORDS ||
              strContains (lowerStr line) "australia") = true := by simp [h4]
          simp only [addrLoop, h1, h2, h3, h4] at hl
          simp only [if_true, List.dropLast_concat] at hl
          exact hacc l (by simpa using hl)
        · have h4' : strContains (lowerStr line) "australia" = false := by
            revert h4; cases strContains (lowerStr line) "australia" <;> simp
          by_cases h5 : (hasKw line START || hasKw line STREET_WORDS ||
              hasKw line CITY_WORDS) = true
          · have hacc' : ∀ x ∈ acc ++ [line], strContains (lowerStr x) "australia" = false := by
              intro x hx
              rcases List.mem_append.mp hx with hx | hx
              · exact hacc x hx
              · simp at hx; rw [hx]; exact h4'
            exact ih true (acc ++ [line]) hacc' l (by simpa [addrLoop, h1, h2, h4', h5] using hl)
          · have h5' : (hasKw line START || hasKw line STREET_WORDS ||
                hasKw line CITY_WORDS) = false := by
              revert h5
              cases hasKw line START <;> cases hasKw line STREET_WORDS <;>
                cases hasKw line CITY_WORDS <;> simp
            exact ih true acc hacc l (by simpa [addrLoop, h1, h2, h4', h5'] using hl)

theorem addrLoop_head_start : ∀ (lines : List String) (l : String),
    (addrLoop lines false []).head? = some l → hasKw l START = true := by
  intro lines
  induction lines with
  | nil => intro l h; simp [addrLoop] at h
  | cons line rest ih =>
    intro l h
    by_cases hstart : hasKw line START = true
    · by_cases h2 : hasKw line STOP = true
      · simp [addrLoop, hstart, h2] at h
      · by_cases h4 : strContains (lowerStr line) "australia" = true
        · simp [addrLoop, hstart, h2, h4] at h
          rw [← h]; exact hstart
        · have h4' : strContains (lowerStr line) "australia" = false := by
            revert h4; cases strContains (lowerStr line) "australia" <;> simp
          obtain ⟨extra, he⟩ := addrLoop_extends rest true [line]
          simp [addrLoop, hstart, h2, h4', he] at h
          rw [← h]; exact hstart
    · have hstart' : hasKw line START = false := by
        revert hstart; cases hasKw line START <;> simp
      exact ih l (by simpa [addrLoop, hstart'] using h)

theorem addrLoop_no_start : ∀ (lines : List String) (acc : List String),
    (∀ l ∈ lines, hasKw l START = false) → addrLoop lines false acc = acc := by
  intro lines
  induction lines with
  | nil => intro acc _; rfl
  | cons line rest ih =>
    intro acc h
    have h1 : (!false && !hasKw line START) = true := by
      simp [h line (List.mem_cons_self line rest)]
    simp only [addrLoop, h1, if_true]
    exact ih acc (fun l hl => h l (List.mem_cons_of_mem line hl))

theorem addrLoop_skip_idle : ∀ (pre rest : List String) (acc : List String),
    (∀ p ∈ pre, hasKw p START = false) →
    addrLoop (pre ++ rest) false acc = addrLoop rest false acc := by
  intro pre
  induction pre with
  | nil => intro rest acc _; rfl
  | cons p pre' ih =>
    intro rest acc h
    have h1 : (!false && !hasKw p START) = true := by
      simp [h p (List.mem_cons_self p pre')]
    simp only [List.cons_append, addrLoop, h1, if_true]
    exact ih rest acc (fun l hl => h l (List.mem_cons_of_mem p hl))

theorem numsOf_append (a b : List String) : numsOf (a ++ b) = numsOf a ++ numsOf b := by
  simp [numsOf, List.filter_append]

theorem numsOf_singleton_length (line : String) :
    (numsOf [line]).length = if isNumericTok line then 1 else 0 := by
  cases hli : isNumericTok line <;> simp [numsOf, List.filter_cons, hli]

theorem numsOf_cons_length (line : String) (rest : List String) :
    (numsOf (line :: rest)).length =
      (if isNumericTok line then 1 else 0) + (numsOf rest).length := by
  cases hli : isNumericTok line
  · simp [numsOf, List.filter_cons, hli]
  · simp [numsOf, List.filter_cons, hli]
    omega

theorem segmentLoop_length : ∀ (bucket group : List String),
    (numsOf group).length ≤ 3 →
    (segmentLoop bucket group).length =
      ((numsOf group).length + (numsOf bucket).length) / 4 := by
  intro bucket
  induction bucket with
  | nil =>
    intro group h
    have h0 : (numsOf ([] : List String)).length = 0 := rfl
    simp only [segmentLoop, List.length_nil, h0, Nat.add_zero]
    exact (Nat.div_eq_of_lt (by omega)).symm
  | cons line rest ih =>
    intro group h
    have hsplit : (numsOf (group ++ [line])).length =
        (numsOf group).length + (numsOf [line]).length := by
      rw [numsOf_append, List.length_append]
    by_cases h4 : 4 ≤ (numsOf (group ++ [line])).length
    · have hli : isNumericTok line = true := by
        cases hli' : isNumericTok line
        · exfalso
          rw [hsplit, numsOf_singleton_length, hli'] at h4
          simp at h4
          omega
        · rfl
      have hg3 : (numsOf group).length = 3 := by
        rw [hsplit, numsOf_singleton_length, hli] at h4
        simp at h4
        omega
      simp only [segmentLoop]
      rw [if_pos h4]
      simp only [List.length_cons]
      rw [ih [] (by simp [numsOf]), numsOf_cons_length, hg3, hli]
      simp only [if_true, Nat.zero_add]
      have h1 : 3 + (1 + (numsOf rest).length) = (numsOf rest).length + 4 := by omega
      rw [h1, Nat.add_div_right _ (by norm_num)]
      have h2 : (numsOf ([] : List String)).length = 0 := rfl
      rw [h2, Nat.zero_add]
    · simp only [segmentLoop]
      rw [if_neg h4]
      rw [ih (group ++ [line]) (by omega)]
      rw [hsplit, numsOf_singleton_length, numsOf_cons_length, Nat.add_assoc]

theorem segmentLoop_emitted : ∀ (bucket group : List String) (item : LineItem),
    (numsOf group).length ≤ 3 → item ∈ segmentLoop bucket group →
    ∃ g, (numsOf g).length = 4 ∧ item = mkItem g (numsOf g) := by
  intro bucket
  induction bucket with
  | nil => intro group item _ h; simp [segmentLoop] at h
  | cons line rest ih =>
    intro group item hg h
    by_cases h4 : 4 ≤ (numsOf (group ++ [line])).length
    · have hone : (numsOf [line]).length ≤ 1 := by
        rw [numsOf_singleton_length]
        cases isNumericTok line <;> simp
      have hlen : (numsOf (group ++ [line])).length = 4 := by
        rw [numsOf_append, List.length_append]
        rw [numsOf_append, List.length_append] at h4
        omega
      simp only [segmentLoop] at h
      rw [if_pos h4] at h
      rcases List.mem_cons.mp h with h | h
      · exact ⟨group ++ [line], hlen, h⟩
      · exact ih [] item (by simp [numsOf]) h
    · simp only [segmentLoop] at h
      rw [if_neg h4] at h
      exact ih (group ++ [line]) item (by omega) h

theorem descOf_numsOf (g : List String) :
    descOf g (numsOf g) =
      pyStrip (String.intercalate " " (g.filter (fun x =>
        !isNumericTok x && !noiseLeadMatch (lowerStr x) &&
        !strContains (lowerStr x) "amount aud" && !strContains (lowerStr x) "tixperts-"))) := by
  unfold descOf
  congr 2
  apply List.filter_congr
  intro x hx
  have hc : (numsOf g).contains x = isNumericTok x := by
    by_cases hn : isNumericTok x = true
    · have hmem : x ∈ numsOf g := List.mem_filter.mpr ⟨hx, hn⟩
      simp [List.contains, hmem, hn]
    · have hn' : isNumericTok x = false := by revert hn; cases isNumericTok x <;> simp
      have hmem : x ∉ numsOf g := fun hmem => hn (List.mem_filter.mp hmem).2
      simp [List.contains, hmem, hn']
  rw [hc]

theorem find_date_in_window_eq (dp : String → Option String) (lines : List String)
    (startIdx window : Nat) :
    find_date_in_window dp lines startIdx window =
      ((lines.drop (startIdx + 1)).take (window - 1)).findSome? dp := by
  unfold find_date_in_window
  by_cases ha : startIdx + 1 ≤ lines.length
  · have hn : startIdx + 1 + (min (startIdx + window) lines.length - (startIdx + 1)) ≤
        lines.length := by omega
    rw [range'_findSome?_getD dp "" _ _ lines hn]
    rcases Nat.le_total (startIdx + window) lines.length with h1 | h1
    · have : min (startIdx + window) lines.length - (startIdx + 1) = window - 1 := by omega
      rw [this]
    · have hlen : (lines.drop (startIdx + 1)).length = lines.length - (startIdx + 1) := by
        simp
      rw [List.take_of_length_le (by omega), List.take_of_length_le (by omega)]
  · have hn : min (startIdx + window) lines.length - (startIdx + 1) = 0 := by omega
    have hdrop : lines.drop (startIdx + 1) = [] := by
      rw [List.drop_eq_nil_iff]
      omega
    rw [hn, hdrop]
    simp

theorem invoiceDateField_ext (dp1 dp2 : String → Option String) (safe : List String)
    (h : ∀ s ∈ safe, dp1 s = dp2 s) :
    invoiceDateField dp1 safe = invoiceDateField dp2 safe := by
  have hwin : (fun i => find_date_in_window dp1 safe i 6) =
      (fun i => find_date_in_window dp2 safe i 6) := by
    funext i
    rw [find_date_in_window_eq, find_date_in_window_eq]
    apply findSome?_ext
    intro a ha
    exact h a (List.drop_subset _ _ (List.take_subset _ _ ha))
  have hfall : safe.findSome? (fun t => dp1 t) = safe.findSome? (fun t => dp2 t) :=
    findSome?_ext safe h
  simp only [invoiceDateField]
  rw [hwin, hfall]

theorem extract_invoice_fields_ext (dp1 dp2 : String → Option String) (lines : List String)
    (h : ∀ s ∈ safeOf lines, dp1 s = dp2 s) :
    extract_invoice_fields dp1 lines = extract_invoice_fields dp2 lines := by
  simp only [extract_invoice_fields]
  rw [invoiceDateField_ext dp1 dp2 (safeOf lines) h]

theorem extract_totals_eq (dp : String → Option String) (lines : List String) :
    (extract_invoice_fields dp lines).totals =
      { total := (moneyFindAll (fullOf lines)).getLast?
        gst_amount := gstAmountOf (safeOf lines) (fullOf lines)
        gst_percent := gstPercentFromItems (extract_items (safeOf lines))
        subtotal := subtotalOf ((moneyFindAll (fullOf lines)).getLast?)
          (gstAmountOf (safeOf lines) (fullOf lines)) } := rfl

theorem extract_address_eq (dp : String → Option String) (lines : List String) :
    (extract_invoice_fields dp lines).supplier.address =
      extract_supplier_address (safeOf lines) := rfl

theorem extract_customer_eq (dp : String → Option String) (lines : List String) :
    (extract_invoice_fields dp lines).customer.name =
      (findCustomerName (safeOf lines)).map (fun s => some s) := rfl

theorem extract_invoice_date_eq (dp : String → Option String) (lines : List String) :
    (extract_invoice_fields dp lines).invoice_details.invoice_date =
      invoiceDateField dp (safeOf lines) := rfl

/-- C5: the address capture never contains a stop-keyword line (the stop
line is excluded), a captured line containing `australia` is necessarily
the last one captured (inclusive termination), capture begins only at a
start-keyword line, and while capturing a stop line terminates the loop
immediately without appending while an `australia` line terminates it
immediately after appending. -/
theorem C5_address_capture_bounds (lines : List String) :
    (∀ l ∈ addressLines lines, hasKw l STOP = false) ∧
    (∀ l ∈ (addressLines lines).dropLast, strContains (lowerStr l) "australia" = false) ∧
    (∀ l, (addressLines lines).head? = some l → hasKw l START = true) ∧
    (∀ (acc post : List String) (l : String), hasKw l STOP = true →
      addrLoop (l :: post) true acc = acc) ∧
    (∀ (acc post : List String) (l : String), hasKw l STOP = false →
      strContains (lowerStr l) "australia" = true →
      addrLoop (l :: post) true acc = acc ++ [l]) := by
  refine ⟨addrLoop_stop_free lines false [] (by simp),
    addrLoop_aus_last lines false [] (by simp),
    fun l => addrLoop_head_start lines l, ?_, ?_⟩
  · intro acc post l hstop
    simp [addrLoop, hstop]
  · intro acc post l hstop haus
    simp [addrLoop, hstop, haus]

theorem C5_address_capture_bounds_witness :
    ("Suite 5" ∈ addressLines ["Suite 5", "Collins St", "Melbourne", "Australia", "x"]) ∧
    hasKw "Suite 5" STOP = false :=
  ⟨by decide,
    (C5_address_capture_bounds ["Suite 5", "Collins St", "Melbourne", "Australia", "x"]).1
      "Suite 5" (by decide)⟩

/-- C6: the number of emitted line items equals the floor of the number of
numeric-token lines in the bucket divided by four; in particular fewer than
four numeric tokens yield no item and a partial trailing group is
discarded. -/
theorem C6_item_count (lines : List String) :
    (extract_items lines).length =
      (numsOf (bucketLoop (safeOf lines) false)).length / 4 := by
  unfold extract_items
  rw [segmentLoop_length (bucketLoop (safeOf lines) false) [] (by simp [numsOf])]
  simp [numsOf]

/-- C7: every emitted item comes from a group holding exactly four numeric
tokens; its quantity, unit price and line total are the 1st, 2nd and 4th of
those tokens, its GST percent is the 3rd token exactly when that token is
percent-shaped (else null), and its description is the group's non-numeric,
non-noise lines joined by single spaces and trimmed. -/
theorem C7_item_fields (lines : List String) (item : LineItem)
    (h : item ∈ extract_items lines) :
    ∃ g, (numsOf g).length = 4 ∧
      item.quantity = (numsOf g).getD 0 "" ∧
      item.unit_price = (numsOf g).getD 1 "" ∧
      item.line_total = (numsOf g).getD 3 "" ∧
      item.gst_percent = (if gstPercentMatch ((numsOf g).getD 2 "") then
        some ((numsOf g).getD 2 "") else none) ∧
      item.description = pyStrip (String.intercalate " " (g.filter (fun x =>
        !isNumericTok x && !noiseLeadMatch (lowerStr x) &&
        !strContains (lowerStr x) "amount aud" && !strContains (lowerStr x) "tixperts-"))) := by
  have h' : item ∈ segmentLoop (bucketLoop (safeOf lines) false) [] := h
  obtain ⟨g, hlen, hitem⟩ :=
    segmentLoop_emitted (bucketLoop (safeOf lines) false) [] item (by simp [numsOf]) h'
  refine ⟨g, hlen, ?_, ?_, ?_, ?_, ?_⟩
  · rw [hitem]; rfl
  · rw [hitem]; rfl
  · rw [hitem]; rfl
  · rw [hitem]; rfl
  · rw [hitem]
    show descOf g (numsOf g) = _
    exact descOf_numsOf g

theorem C7_item_fields_witness :
    ((⟨"Widget A", "2", "10.00", some "10%", "20.00"⟩ : LineItem) ∈
      extract_items ["Unit Price", "Widget A", "2", "10.00", "10%", "20.00"]) ∧
    ∃ g, (numsOf g).length = 4 ∧
      (⟨"Widget A", "2", "10.00", some "10%", "20.00"⟩ : LineItem).quantity =
        (numsOf g).getD 0 "" ∧
      (⟨"Widget A", "2", "10.00", some "10%", "20.00"⟩ : LineItem).unit_price =
        (numsOf g).getD 1 "" ∧
      (⟨"Widget A", "2", "10.00", some "10%", "20.00"⟩ : LineItem).line_total =
        (numsOf g).getD 3 "" ∧
      (⟨"Widget A", "2", "10.00", some "10%", "20.00"⟩ : LineItem).gst_percent =
        (if gstPercentMatch ((numsOf g).getD 2 "") then
          some ((numsOf g).getD 2 "") else none) ∧
      (⟨"Widget A", "2", "10.00", some "10%", "20.00"⟩ : LineItem).description =
        pyStrip (String.intercalate " " (g.filter (fun x =>
          !isNumericTok x && !noiseLeadMatch (lowerStr x) &&
          !strContains (lowerStr x) "amount aud" && !strContains (lowerStr x) "tixperts-"))) :=
  ⟨by decide,
    C7_item_fields ["Unit Price", "Widget A", "2", "10.00", "10%", "20.00"]
      ⟨"Widget A", "2", "10.00", some "10%", "20.00"⟩ (by decide)⟩

/-- C9: `supplier.address` is a plain string (its field has no `Option` in
the record, matching the source): when no normalized line holds a start
keyword, and likewise whenever the capture buffer ends empty, the extractor
returns the empty string rather than null. -/
theorem C9_address_empty_string (dp : String → Option String) (lines : List String) :
    ((∀ l ∈ safeOf lines, hasKw l START = false) →
      (extract_invoice_fields dp lines).supplier.address = "") ∧
    (addressLines (safeOf lines) = [] →
      (extract_invoice_fields dp lines).supplier.address = "") := by
  constructor
  · intro h
    rw [extract_address_eq]
    unfold extract_supplier_address addressLines
    rw [addrLoop_no_start (safeOf lines) [] h]
    decide
  · intro h
    rw [extract_address_eq]
    unfold extract_supplier_address
    rw [h]
    decide

theorem C9_address_empty_string_witness :
    (∀ l ∈ safeOf ["hello", "world"], hasKw l START = false) ∧
    (extract_invoice_fields dpNone ["hello", "world"]).supplier.address = "" :=
  ⟨by decide, (C9_address_empty_string dpNone ["hello", "world"]).1 (by decide)⟩

/-- C10: the stop check applies to the very line that starts capture: if
the first start-keyword line also holds a stop keyword, the loop enters
capturing and breaks on that same line without appending, so the returned
address is the empty string. -/
theorem C10_start_stop_same_line (pre post : List String) (l : String)
    (hpre : ∀ p ∈ pre, hasKw p START = false)
    (hstart : hasKw l START = true) (hstop : hasKw l STOP = true) :
    extract_supplier_address (pre ++ l :: post) = "" := by
  unfold extract_supplier_address addressLines
  rw [addrLoop_skip_idle pre (l :: post) [] hpre]
  have h1 : (!false && !hasKw l START) = false := by simp [hstart]
  simp only [addrLoop, h1, Bool.false_eq_true, if_false, hstop, if_true]
  decide

theorem C10_start_stop_same_line_witness :
    ((∀ p ∈ (["Hello"] : List String), hasKw p START = false) ∧
      hasKw "Level 3 Invoice St" START = true ∧ hasKw "Level 3 Invoice St" STOP = true) ∧
    extract_supplier_address (["Hello"] ++ "Level 3 Invoice St" :: ["Sydney"]) = "" :=
  ⟨⟨by decide, by decide, by decide⟩,
    C10_start_stop_same_line ["Hello"] ["Sydney"] "Level 3 Invoice St"
      (by decide) (by decide) (by decide)⟩

theorem find_date_in_window_six (dp : String → Option String) (lines : List String) (i : Nat) :
    find_date_in_window dp lines i 6 = ((lines.drop (i + 1)).take 5).findSome? dp := by
  simpa using find_date_in_window_eq dp lines i 6

section
attribute [local semireducible] Rat.add Rat.mul Rat.inv Rat.sub

/-- C1 counterexample: on the single line `INCLUDES GST 0.00` both
`totals.total` and `totals.gst_amount` are present and equal `0.00`, yet
`totals.subtotal` is null instead of `round(total - gst_amount, 2) = 0`:
the source's `if total and gst_amount:` treats the float `0.0` as falsy. -/
theorem C1_subtotal_zero_counterexample :
    (extract_invoice_fields dpNone ["INCLUDES GST 0.00"]).totals.total = some 0 ∧
    (extract_invoice_fields dpNone ["INCLUDES GST 0.00"]).totals.gst_amount = some 0 ∧
    (extract_invoice_fields dpNone ["INCLUDES GST 0.00"]).totals.subtotal ≠
      some (round2 (0 - 0)) ∧
    (extract_invoice_fields dpNone ["INCLUDES GST 0.00"]).totals.subtotal = none := by
  decide

/-- C1 (amended): `totals.subtotal = round(total - gst_amount, 2)` holds
whenever both operands are non-null and non-zero; in every other case —
either operand null, or either operand present but equal to 0.00 —
`totals.subtotal` is null. -/
theorem C1_subtotal_law (dp : String → Option String) (lines : List String) :
    (∀ t g : ℚ, (extract_invoice_fields dp lines).totals.total = some t →
      (extract_invoice_fields dp lines).totals.gst_amount = some g →
      t ≠ 0 → g ≠ 0 →
      (extract_invoice_fields dp lines).totals.subtotal = some (round2 (t - g))) ∧
    ((extract_invoice_fields dp lines).totals.total = none ∨
      (extract_invoice_fields dp lines).totals.total = some 0 ∨
      (extract_invoice_fields dp lines).totals.gst_amount = none ∨
      (extract_invoice_fields dp lines).totals.gst_amount = some 0 →
      (extract_invoice_fields dp lines).totals.subtotal = none) := by
  have htot : (extract_invoice_fields dp lines).totals.subtotal =
      subtotalOf ((extract_invoice_fields dp lines).totals.total)
        ((extract_invoice_fields dp lines).totals.gst_amount) := rfl
  constructor
  · intro t g ht hg ht0 hg0
    rw [htot, ht, hg]
    simp [subtotalOf, ht0, hg0]
  · intro hcase
    rw [htot]
    rcases hcase with h | h | h | h
    · rw [h]
      cases (extract_invoice_fields dp lines).totals.gst_amount <;> simp [subtotalOf]
    · rw [h]
      cases (extract_invoice_fields dp lines).totals.gst_amount <;> simp [subtotalOf]
    · rw [h]
      cases (extract_invoice_fields dp lines).totals.total <;> simp [subtotalOf]
    · rw [h]
      cases (extract_invoice_fields dp lines).totals.total <;> simp [subtotalOf]

theorem C1_subtotal_law_witness :
    ((extract_invoice_fields dpNone ["INCLUDES GST 1.00", "x", "10.00"]).totals.total =
        some 10 ∧
      (extract_invoice_fields dpNone ["INCLUDES GST 1.00", "x", "10.00"]).totals.gst_amount =
        some 1 ∧
      (10 : ℚ) ≠ 0 ∧ (1 : ℚ) ≠ 0) ∧
    (extract_invoice_fields dpNone ["INCLUDES GST 1.00", "x", "10.00"]).totals.subtotal =
      some (round2 (10 - 1)) :=
  ⟨⟨by decide, by decide, by decide, by decide⟩,
    (C1_subtotal_law dpNone ["INCLUDES GST 1.00", "x", "10.00"]).1 10 1
      (by decide) (by decide) (by decide) (by decide)⟩

/-- C2 counterexample: on the empty input, where neither field is
extracted, the `invoice_date` and `customer.name` dictionary keys are never
assigned at all (outer `none`), not present with value null (`some none`)
as the claim asserts of every leaf field. -/
theorem C2_absent_keys_counterexample :
    (extract_invoice_fields dpNone []).invoice_details.invoice_date = none ∧
    (extract_invoice_fields dpNone []).invoice_details.invoice_date ≠ some none ∧
    (extract_invoice_fields dpNone []).customer.name = none ∧
    (extract_invoice_fields dpNone []).customer.name ≠ some none := by
  decide

/-- C2 (amended): the engine is a total function into the fixed record
shape; on the empty input it degrades to the all-null record — every leaf
null and items empty, except that `supplier.address` is the empty string
(never null) and the `invoice_details.invoice_date` / `customer.name` keys
are omitted entirely rather than set to null; moreover the `customer.name`
key is never present holding a null value. -/
theorem C2_schema_total (dp : String → Option String) :
    extract_invoice_fields dp [] =
      { invoice_details := { invoice_number := none, invoice_date := none, due_date := none }
        supplier := { name := none, address := "", abn := none }
        customer := { name := none }
        items := []
        totals := { total := none, gst_amount := none, gst_percent := none, subtotal := none }
        payment_terms := { amount_due := none, due_date := none } } ∧
    ∀ lines : List String, (extract_invoice_fields dp lines).customer.name ≠ some none := by
  constructor
  · rfl
  · intro lines h
    rw [extract_customer_eq] at h
    cases hf : findCustomerName (safeOf lines) <;> rw [hf] at h <;> simp at h

theorem C2_schema_total_witness :
    extract_invoice_fields dpNone [] =
      { invoice_details := { invoice_number := none, invoice_date := none, due_date := none }
        supplier := { name := none, address := "", abn := none }
        customer := { name := none }
        items := []
        totals := { total := none, gst_amount := none, gst_percent := none, subtotal := none }
        payment_terms := { amount_due := none, due_date := none } } ∧
    (extract_invoice_fields dpNone ["x"]).customer.name ≠ some none :=
  ⟨(C2_schema_total dpNone).1, (C2_schema_total dpNone).2 ["x"]⟩

/-- C3 counterexample: the anchor sits at index 1 and a date line sits at
index 7 — the sixth line after the anchor, inside the claim's 6-line
window, which therefore resolves `05 May 2021`; the code's window scans
only indices 2–6 (five lines), misses it, and the global fallback instead
returns the date line at index 0, `01 Jan 2020`. -/
theorem C3_window_counterexample :
    (["01 Jan 2020", "invoice date", "a1", "a2", "a3", "a4", "a5",
        "05 May 2021"].findIdx? (fun l => strContains (lowerStr l) "invoice date") =
      some 1) ∧
    findDateInWindowSpec6 dpTest
      ["01 Jan 2020", "invoice date", "a1", "a2", "a3", "a4", "a5", "05 May 2021"] 1 =
      some "05 May 2021" ∧
    invoiceDateField dpTest
      ["01 Jan 2020", "invoice date", "a1", "a2", "a3", "a4", "a5", "05 May 2021"] =
      some (some "01 Jan 2020") := by
  decide

/-- C3 (amended): for window parameter `W = 6` the anchored resolver
examines exactly the next five lines after the anchor (`W - 1`, truncated
at end of input) and returns the first resolving line; if no anchor exists
or nothing in that window resolves, the entire sequence is scanned for the
first resolving line; with an anchor present but nothing resolving anywhere
the field is present and null, and with no anchor and nothing resolving the
key is absent. -/
theorem C3_window_resolution (dp : String → Option String) (lines : List String)
    (hdp : ∀ s ∈ lines, dp s ≠ some "") :
    (∀ i, find_date_in_window dp lines i 6 =
      ((lines.drop (i + 1)).take 5).findSome? dp) ∧
    invoiceDateField dp lines =
      (match lines.findIdx? (fun l => strContains (lowerStr l) "invoice date") with
       | some i =>
         (match ((lines.drop (i + 1)).take 5).findSome? dp with
          | some d => some (some d)
          | none =>
            match lines.findSome? (fun t => dp t) with
            | some d => some (some d)
            | none => some none)
       | none => (lines.findSome? (fun t => dp t)).map (fun d => some d)) := by
  refine ⟨fun i => find_date_in_window_six dp lines i, ?_⟩
  simp only [invoiceDateField]
  cases hidx : lines.findIdx? (fun l => strContains (lowerStr l) "invoice date") with
  | none =>
    simp only [hidx, Option.map_none']
    cases hfs : lines.findSome? (fun t => dp t) <;> simp [hfs]
  | some i =>
    simp only [hidx, Option.map_some']
    rw [find_date_in_window_six]
    cases hw : ((lines.drop (i + 1)).take 5).findSome? dp with
    | some d =>
      have hd : (d != "") = true := by
        obtain ⟨a, ha, hfa⟩ := List.exists_of_findSome?_eq_some hw
        have hne : dp a ≠ some "" := hdp a (List.drop_subset _ _ (List.take_subset _ _ ha))
        have hd' : d ≠ "" := fun he => hne (by rw [hfa, he])
        simpa using hd'
      simp [hw, hd]
    | none =>
      simp only [hw]
      cases hfs : lines.findSome? (fun t => dp t) <;> simp [hfs]

theorem C3_window_resolution_witness :
    (∀ s ∈ (["invoice date", "x", "01 Jan 2020"] : List String), dpTest s ≠ some "") ∧
    ((∀ i, find_date_in_window dpTest ["invoice date", "x", "01 Jan 2020"] i 6 =
      ((["invoice date", "x", "01 Jan 2020"].drop (i + 1)).take 5).findSome? dpTest) ∧
    invoiceDateField dpTest ["invoice date", "x", "01 Jan 2020"] =
      (match (["invoice date", "x", "01 Jan 2020"] : List String).findIdx?
          (fun l => strContains (lowerStr l) "invoice date") with
       | some i =>
         (match ((["invoice date", "x", "01 Jan 2020"].drop (i + 1)).take 5).findSome?
            dpTest with
          | some d => some (some d)
          | none =>
            match (["invoice date", "x", "01 Jan 2020"] : List String).findSome?
                (fun t => dpTest t) with
            | some d => some (some d)
            | none => some none)
       | none => ((["invoice date", "x", "01 Jan 2020"] : List String).findSome?
          (fun t => dpTest t)).map (fun d => some d))) :=
  ⟨by decide, C3_window_resolution dpTest ["invoice date", "x", "01 Jan 2020"] (by decide)⟩

/-- C4 counterexample: the inline match fails (the first digit run after
`INCLUDES GST` is `12`, not decimal-shaped), and a decimal `3.45` sits
exactly five lines after the anchor line at index 0: the claim's window —
up to five lines strictly after the anchor — finds it, so under the claim
`gst_amount` would be non-null; the code scans `safe[idx:idx+5]`, the
anchor line itself and the next four only, and yields null. -/
theorem C4_window_counterexample :
    inlineGst (fullOf ["INCLUDES GST", "12", "x", "x", "x", "3.45"]) = none ∧
    ((safeOf ["INCLUDES GST", "12", "x", "x", "x", "3.45"]).findIdx?
      (fun l => strContains (lowerStr l) "includes gst") = some 0) ∧
    gstWindowSpecAfter (safeOf ["INCLUDES GST", "12", "x", "x", "x", "3.45"]) =
      some (69 / 20) ∧
    (extract_invoice_fields dpNone
      ["INCLUDES GST", "12", "x", "x", "x", "3.45"]).totals.gst_amount = none := by
  decide

/-- C4 (amended): when the full text has no inline `INCLUDES GST <decimal>`
match, the GST amount comes from scanning the slice `safe[idx:idx+5]` — the
first `includes gst` line itself and up to four lines after it — for the
first decimal-shaped substring, and `gst_amount` is null exactly when that
scan also fails. -/
theorem C4_gst_window (dp : String → Option String) (lines : List String)
    (h : inlineGst (fullOf lines) = none) :
    (extract_invoice_fields dp lines).totals.gst_amount = gstWindowScan (safeOf lines) ∧
    ((extract_invoice_fields dp lines).totals.gst_amount = none ↔
      gstWindowScan (safeOf lines) = none) := by
  have hg : (extract_invoice_fields dp lines).totals.gst_amount =
      gstAmountOf (safeOf lines) (fullOf lines) := rfl
  rw [hg]
  unfold gstAmountOf
  rw [h]
  exact ⟨rfl, Iff.rfl⟩

theorem C4_gst_window_witness :
    inlineGst (fullOf ["INCLUDES GST", "9", "7.50"]) = none ∧
    ((extract_invoice_fields dpNone ["INCLUDES GST", "9", "7.50"]).totals.gst_amount =
      gstWindowScan (safeOf ["INCLUDES GST", "9", "7.50"]) ∧
    ((extract_invoice_fields dpNone ["INCLUDES GST", "9", "7.50"]).totals.gst_amount = none ↔
      gstWindowScan (safeOf ["INCLUDES GST", "9", "7.50"]) = none)) :=
  ⟨by decide, C4_gst_window dpNone ["INCLUDES GST", "9", "7.50"] (by decide)⟩

/-- C8 counterexample: on the line `today` the record depends on the
invocation time that the date-parsing capability consults — the two
capability instances model `dateparser` resolving the relative expression
`today` on two consecutive days — so the engine is not independent of
state outside the input. -/
theorem C8_time_dependence_counterexample :
    extract_invoice_fields dpClockA ["today"] ≠ extract_invoice_fields dpClockB ["today"] := by
  decide

/-- C8 (amended): the engine is deterministic relative to the date-parsing
capability: the record depends on that capability only through its values
on the normalized input lines, so two invocations whose capabilities agree
there — in particular two invocations with the same capability — produce
identical records; independence from invocation time is not guaranteed,
since the capability may consult it. -/
theorem C8_determinism (dp1 dp2 : String → Option String) (lines : List String)
    (h : ∀ s ∈ safeOf lines, dp1 s = dp2 s) :
    extract_invoice_fields dp1 lines = extract_invoice_fields dp2 lines :=
  extract_invoice_fields_ext dp1 dp2 lines h

theorem C8_determinism_witness :
    (∀ s ∈ safeOf ["hello"], dpClockA s = dpClockB s) ∧
    extract_invoice_fields dpClockA ["hello"] = extract_invoice_fields dpClockB ["hello"] :=
  ⟨by decide, C8_determinism dpClockA dpClockB ["hello"] (by decide)⟩

end
